import Mathlib

/-!
# Verification of the custom raster-to-vector engine

Shallow embedding of the engine's four stages (edge detection, contour
tracing, color quantization / region segmentation, vector assembly) from
`src/utils/edgeDetection.ts`, `src/utils/colorQuantization.ts` (which also
holds the path-tracing classes) and `src/utils/customVectorizer.ts`, plus
the shared helpers of `src/utils/common.ts`.

Modelling conventions:
* JS numbers are modelled as `ℚ` (thresholds, smoothing factors, clock
  values) or `ℤ`/`ℕ` where the source only ever holds integers (pixel
  coordinates, channel values, counts).
* `Math.round` is `jsRound` (round half towards +∞, as in JS).
* The source only ever uses `Math.sqrt d` in comparisons against a
  threshold `t`.  Since `d ≥ 0` is always a sum of squares, those
  comparisons are decided by the equivalent square comparisons
  (`sqrtGtB`/`sqrtLtB`/`sqrtLeB` below); the bridge lemmas
  `sqrtGtB_eq_true_iff` etc. prove the equivalence with `Real.sqrt`.
* JS `Set`s of stringified coordinates are lists of coordinate pairs
  (the string encoding `"x,y"` is injective on integer coordinates).
-/

/- Core marks the arithmetic of `Rat` `@[irreducible]`, which blocks the
`decide` tactic's reduction; restore the default transparency for this
file's concrete evaluations. -/
attribute [local semireducible] Rat.inv Rat.mul Rat.add Rat.sub

/-- JS `Math.round`: round half away from zero towards +∞, `⌊q + 1/2⌋`. -/
def jsRound (q : ℚ) : ℤ := ⌊q + 1/2⌋

/-- Decides `Math.sqrt s > t` for a nonnegative radicand `s` (every radicand
in the source is a sum of squares). -/
def sqrtGtB (s t : ℚ) : Bool := decide (t < 0) || decide (t^2 < s)

/-- Decides `Math.sqrt s < t` for a nonnegative radicand `s`. -/
def sqrtLtB (s t : ℚ) : Bool := decide (0 < t) && decide (s < t^2)

/-- Decides `Math.sqrt s <= t` for a nonnegative radicand `s`. -/
def sqrtLeB (s t : ℚ) : Bool := decide (0 ≤ t) && decide (s ≤ t^2)

lemma sqrtGtB_eq_true_iff (s t : ℚ) (_hs : 0 ≤ s) :
    sqrtGtB s t = true ↔ (t : ℝ) < Real.sqrt s := by
  unfold sqrtGtB
  simp only [Bool.or_eq_true, decide_eq_true_eq]
  rcases lt_or_le t 0 with ht | ht
  · have hr : (t:ℝ) < Real.sqrt s :=
      lt_of_lt_of_le (by exact_mod_cast ht) (Real.sqrt_nonneg _)
    exact ⟨fun _ => hr, fun _ => Or.inl ht⟩
  · have ht' : (0:ℝ) ≤ (t:ℝ) := by exact_mod_cast ht
    rw [Real.lt_sqrt ht']
    constructor
    · rintro (h | h)
      · exact absurd h (not_lt.mpr ht)
      · exact_mod_cast h
    · intro h; right; exact_mod_cast h

lemma sqrtLeB_eq_true_iff (s t : ℚ) (_hs : 0 ≤ s) :
    sqrtLeB s t = true ↔ Real.sqrt s ≤ (t : ℝ) := by
  unfold sqrtLeB
  simp only [Bool.and_eq_true, decide_eq_true_eq]
  rw [Real.sqrt_le_iff]
  constructor
  · rintro ⟨ht, h⟩
    exact ⟨by exact_mod_cast ht, by exact_mod_cast h⟩
  · rintro ⟨ht, h⟩
    exact ⟨by exact_mod_cast ht, by exact_mod_cast h⟩

lemma sqrtLtB_eq_true_iff (s t : ℚ) (_hs : 0 ≤ s) :
    sqrtLtB s t = true ↔ Real.sqrt s < (t : ℝ) := by
  unfold sqrtLtB
  simp only [Bool.and_eq_true, decide_eq_true_eq]
  rcases le_or_lt t 0 with ht | ht
  · have ht' : (t:ℝ) ≤ 0 := by exact_mod_cast ht
    constructor
    · rintro ⟨h, -⟩; exact absurd h (not_lt.mpr ht)
    · intro h
      exact absurd (lt_of_le_of_lt (Real.sqrt_nonneg _) h) (not_lt.mpr ht')
  · have ht' : (0:ℝ) < (t:ℝ) := by exact_mod_cast ht
    rw [Real.sqrt_lt' ht']
    constructor
    · rintro ⟨-, h⟩; exact_mod_cast h
    · intro h; exact ⟨ht, by exact_mod_cast h⟩

/-! ## Data model: colors and rasters -/

/-- `Color` of `colorQuantization.ts`: one RGBA sample.  Channel values in the
source are JS numbers holding integers in `[0,255]`; differences are taken,
so the fields are `ℤ`. -/
structure Color where
  r : ℤ
  g : ℤ
  b : ℤ
  a : ℤ
deriving DecidableEq, Repr

/-- Squared Euclidean RGBA distance.  The source's `colorDistance` is
`Math.sqrt` of this; all uses compare it against a threshold, decided via
`sqrtGtB`/`sqrtLtB`/`sqrtLeB`. -/
def colorDistSq (c1 c2 : Color) : ℤ :=
  (c1.r - c2.r)^2 + (c1.g - c2.g)^2 + (c1.b - c2.b)^2 + (c1.a - c2.a)^2

lemma colorDistSq_nonneg (c1 c2 : Color) : 0 ≤ colorDistSq c1 c2 := by
  unfold colorDistSq; positivity

/-- `ImageData`: width, height, and the flat row-major RGBA byte sequence. -/
structure Raster where
  width : ℕ
  height : ℕ
  data : List ℤ
deriving DecidableEq, Repr

/-! ## Sobel edge detection (`edgeDetection.ts`, `SobelEdgeDetector.detect`) -/

/-- `rgbToGrayscale` of `common.ts`: `Math.round(0.299r + 0.587g + 0.114b)`. -/
def rgbToGrayscale (r g b : ℤ) : ℤ :=
  jsRound ((299/1000 : ℚ) * r + (587/1000 : ℚ) * g + (114/1000 : ℚ) * b)

/-- Grayscale value of the pixel at `(x, y)`: the source reads
`data[((y*width)+x)*4 .. +2]` and converts to luminance. -/
def grayAt (img : Raster) (x y : ℕ) : ℤ :=
  rgbToGrayscale (img.data.getD ((y * img.width + x) * 4) 0)
    (img.data.getD ((y * img.width + x) * 4 + 1) 0)
    (img.data.getD ((y * img.width + x) * 4 + 2) 0)

/-- Unrolled 3×3 convolution with `sobelX = [[-1,0,1],[-2,0,2],[-1,0,1]]`
(indexed `sobelX[ky+1][kx+1]`), evaluated at an interior pixel `(x, y)`. -/
def sobelGx (img : Raster) (x y : ℕ) : ℤ :=
  -(grayAt img (x-1) (y-1)) + grayAt img (x+1) (y-1)
  - 2 * grayAt img (x-1) y + 2 * grayAt img (x+1) y
  - grayAt img (x-1) (y+1) + grayAt img (x+1) (y+1)

/-- Unrolled 3×3 convolution with `sobelY = [[-1,-2,-1],[0,0,0],[1,2,1]]`. -/
def sobelGy (img : Raster) (x y : ℕ) : ℤ :=
  -(grayAt img (x-1) (y-1)) - 2 * grayAt img x (y-1) - grayAt img (x+1) (y-1)
  + grayAt img (x-1) (y+1) + 2 * grayAt img x (y+1) + grayAt img (x+1) (y+1)

/-- Red channel of `SobelEdgeDetector.detect`'s result at `(x, y)`: the loops
run `y` over `1..height-2` and `x` over `1..width-2`; interior pixels get
`255` when `Math.sqrt(gx*gx+gy*gy) > threshold`, else `0`; everything else
keeps the zero-initialised `ImageData`. -/
def sobelEdgeValue (img : Raster) (t : ℚ) (x y : ℕ) : ℕ :=
  if 1 ≤ x ∧ x + 1 < img.width ∧ 1 ≤ y ∧ y + 1 < img.height then
    (if sqrtGtB (((sobelGx img x y)^2 + (sobelGy img x y)^2 : ℤ) : ℚ) t
     then 255 else 0)
  else 0

/-- The boolean edge mask derived from the Sobel result, as
`CustomVectorizer.imageDataToBooleanArray` derives it: a pixel is an edge
iff a channel value is `> 0`. -/
def sobelMask (img : Raster) (t : ℚ) (x y : ℕ) : Bool :=
  decide (0 < sobelEdgeValue img t x y)

/-- C5: a pixel is marked edge by Sobel iff it is interior and
`√(Gx²+Gy²) > threshold`. -/
theorem sobelMask_eq_true_iff (img : Raster) (t : ℚ) (x y : ℕ) :
    sobelMask img t x y = true ↔
      (1 ≤ x ∧ x + 1 < img.width ∧ 1 ≤ y ∧ y + 1 < img.height ∧
        (t : ℝ) < Real.sqrt ((sobelGx img x y : ℝ)^2 + (sobelGy img x y : ℝ)^2)) := by
  have hs : (0:ℚ) ≤ (((sobelGx img x y)^2 + (sobelGy img x y)^2 : ℤ) : ℚ) := by
    have h0 : (0:ℤ) ≤ (sobelGx img x y)^2 + (sobelGy img x y)^2 := by positivity
    exact_mod_cast h0
  have hbridge := sqrtGtB_eq_true_iff _ t hs
  rw [show ((((sobelGx img x y)^2 + (sobelGy img x y)^2 : ℤ) : ℚ) : ℝ)
      = (sobelGx img x y : ℝ)^2 + (sobelGy img x y : ℝ)^2 by push_cast; ring] at hbridge
  unfold sobelMask sobelEdgeValue
  by_cases h : 1 ≤ x ∧ x + 1 < img.width ∧ 1 ≤ y ∧ y + 1 < img.height
  · rw [if_pos h]
    by_cases hb : sqrtGtB (((sobelGx img x y)^2 + (sobelGy img x y)^2 : ℤ) : ℚ) t = true
    · rw [if_pos hb]
      constructor
      · intro _; exact ⟨h.1, h.2.1, h.2.2.1, h.2.2.2, hbridge.mp hb⟩
      · intro _; decide
    · rw [if_neg hb]
      constructor
      · intro hc; exact absurd hc (by decide)
      · rintro ⟨-, -, -, -, hr⟩; exact absurd (hbridge.mpr hr) hb
  · rw [if_neg h]
    constructor
    · intro hc; exact absurd hc (by decide)
    · rintro ⟨h1, h2, h3, h4, -⟩; exact absurd ⟨h1, h2, h3, h4⟩ h

/-! ## K-means color quantization (`colorQuantization.ts`, `KMeansColorQuantizer`)

`Math.random()` inside `initializeCentroids` is modelled as an explicit
stream of draws in `[0,1)`, consumed in order; it is the hidden input of
the k-means stage. -/

/-- Options record shared by k-means and region growing. -/
structure ColorQuantizationOptions where
  kMeansClusters : ℕ
  colorSimilarityThreshold : ℚ
  regionGrowingThreshold : ℚ
  maxIterations : ℕ
  convergenceThreshold : ℚ
deriving DecidableEq, Repr

/-- `ColorCluster` of the source. -/
structure ColorCluster where
  centroid : Color
  pixels : List Color
  boundingBox : ℤ × ℤ × ℤ × ℤ
deriving DecidableEq, Repr

/-- The color-extraction loop of `quantize`: reads `data[i..i+3]` for
`i = 0, 4, 8, ...` (the byte length of a valid raster is a multiple of 4). -/
def extractColors : List ℤ → List Color
  | r :: g :: b :: a :: rest => ⟨r, g, b, a⟩ :: extractColors rest
  | _ => []

/-- `colorExists`: some already-kept color is within (strictly) `threshold`
of `color`, i.e. `Math.sqrt (colorDistSq ..) < threshold`. -/
def colorExists (colors : List Color) (color : Color) (threshold : ℚ) : Bool :=
  colors.any (fun existing => sqrtLtB ((colorDistSq existing color : ℤ) : ℚ) threshold)

/-- The dedup pass of `quantize`: keep a color only when no kept color is
within the similarity threshold. -/
def dedupColors (cs : List Color) (threshold : ℚ) : List Color :=
  cs.foldl (fun acc c => if colorExists acc c threshold then acc else acc ++ [c]) []

/-- `initializeCentroids`' while-loop (source name shortened): draw a random
index until `k` distinct indices were picked.  The JS loop draws from
`Math.random()`; here the draws arrive as an explicit list, and the loop
also stops when the modelled draw stream is exhausted. -/
def initCentroidsGo (colors : List Color) (k : ℕ) :
    List ℚ → List ℕ → List Color → List Color
  | [], _, cents => cents
  | d :: rest, used, cents =>
    if k ≤ cents.length then cents
    else
      let idx := (⌊d * (colors.length : ℚ)⌋).toNat
      if used.contains idx then initCentroidsGo colors k rest used cents
      else initCentroidsGo colors k rest (used ++ [idx])
        (cents ++ [colors.getD idx ⟨0, 0, 0, 0⟩])

/-- `initializeCentroids(colors, k)` with its `Math.random()` draws made
explicit. -/
def initCentroids (colors : List Color) (k : ℕ) (draws : List ℚ) : List Color :=
  initCentroidsGo colors k draws [] []

/-- Index of the cluster whose centroid is nearest to `color` (first
minimum wins; the source's strict `<` updates against `minDistance`,
starting at `Infinity`).  Distances are compared by their squares, which
agrees with the source's comparisons of `Math.sqrt` values. -/
def nearestClusterIndex (color : Color) (clusters : List ColorCluster) : ℕ :=
  (clusters.foldl (fun (acc : ℕ × ℕ × Option ℤ) cluster =>
    let d := colorDistSq color cluster.centroid
    let better := match acc.2.2 with
      | none => true
      | some best => decide (d < best)
    (acc.1 + 1, if better then acc.1 else acc.2.1, if better then some d else acc.2.2))
    (0, 0, none)).2.1

/-- Append `color` to the pixel list of cluster `i`. -/
def pushPixelAt (clusters : List ColorCluster) (i : ℕ) (color : Color) : List ColorCluster :=
  clusters.mapIdx (fun j cluster =>
    if j = i then { cluster with pixels := cluster.pixels ++ [color] } else cluster)

/-- `updateCentroids`: replace every non-empty cluster's centroid with the
rounded per-channel mean of its pixels; the returned flag is `hasConverged`
(`false` as soon as one centroid moved by more than `convergenceThreshold`,
via `Math.sqrt (distSq) > threshold`). -/
def updateCentroids (clusters : List ColorCluster) (convergenceThreshold : ℚ) :
    List ColorCluster × Bool :=
  clusters.foldl (fun acc cluster =>
    if cluster.pixels.length = 0 then (acc.1 ++ [cluster], acc.2)
    else
      let s := cluster.pixels.foldl
        (fun (s : Color) p => ⟨s.r + p.r, s.g + p.g, s.b + p.b, s.a + p.a⟩) ⟨0, 0, 0, 0⟩
      let len : ℚ := cluster.pixels.length
      let newCentroid : Color :=
        ⟨jsRound ((s.r : ℚ) / len), jsRound ((s.g : ℚ) / len),
         jsRound ((s.b : ℚ) / len), jsRound ((s.a : ℚ) / len)⟩
      let moved := sqrtGtB ((colorDistSq cluster.centroid newCentroid : ℤ) : ℚ)
        convergenceThreshold
      (acc.1 ++ [{ cluster with centroid := newCentroid }],
       if moved then false else acc.2))
    ([], true)

/-- One `while` pass of `runKMeans`, fuelled by the remaining iteration
budget (`maxIterations − iteration`, exactly the source's loop bound). -/
def runKMeansGo (colors : List Color) (options : ColorQuantizationOptions) :
    ℕ → List ColorCluster → List ColorCluster
  | 0, clusters => clusters
  | fuel + 1, clusters =>
    let cleared := clusters.map (fun cluster => { cluster with pixels := ([] : List Color) })
    let assigned := colors.foldl
      (fun cls c => pushPixelAt cls (nearestClusterIndex c cls) c) cleared
    let (updated, hasConverged) := updateCentroids assigned options.convergenceThreshold
    if hasConverged then updated else runKMeansGo colors options fuel updated

/-- `runKMeans`: iterate assignment/update until convergence or
`maxIterations`; afterwards non-empty clusters get the source's stub
bounding box `calculateClusterBoundingBox` = `(0,0,100,100)`. -/
def runKMeans (colors centroids : List Color) (options : ColorQuantizationOptions) :
    List ColorCluster :=
  let clusters := centroids.map
    (fun centroid => ColorCluster.mk centroid [] (0, 0, 0, 0))
  let final := runKMeansGo colors options options.maxIterations clusters
  final.map (fun cluster =>
    if cluster.pixels.length > 0 then { cluster with boundingBox := (0, 0, 100, 100) }
    else cluster)

/-- `KMeansColorQuantizer.quantize` with the `Math.random()` draws of
centroid initialisation made explicit. -/
def quantize (img : Raster) (options : ColorQuantizationOptions) (draws : List ℚ) :
    List ColorCluster :=
  let colors := dedupColors (extractColors img.data) options.colorSimilarityThreshold
  if colors.length ≤ options.kMeansClusters then
    colors.map (fun color =>
      ColorCluster.mk color [color] (0, 0, (img.width : ℤ) - 1, (img.height : ℤ) - 1))
  else
    runKMeans colors (initCentroids colors options.kMeansClusters draws) options

/-! ## Region growing (`colorQuantization.ts`, `RegionGrowingDetector`) -/

/-- Integer pixel coordinate (JS numbers holding integers). -/
abbrev Point := ℤ × ℤ

/-- The row-major enumeration `for y in 0..h-1, for x in 0..w-1`. -/
def rowMajor (h w : ℕ) : List Point :=
  (List.range h).flatMap
    (fun (y : ℕ) => (List.range w).map (fun (x : ℕ) => ((x : ℤ), (y : ℤ))))

/-- One pixel record of a `Region` (`{ x, y, color }`). -/
structure RegionPixel where
  x : ℤ
  y : ℤ
  color : Color
deriving DecidableEq, Repr

/-- Bounding box (`minX`, `minY`, `maxX`, `maxY`). -/
structure BBox where
  minX : ℤ
  minY : ℤ
  maxX : ℤ
  maxY : ℤ
deriving DecidableEq, Repr

/-- `Region` of the source. -/
structure Region where
  id : ℕ
  colors : List Color
  pixels : List RegionPixel
  boundingBox : BBox
  area : ℕ
  averageColor : Color
deriving DecidableEq, Repr

/-- `calculateAverageColor`: rounded per-channel mean (`(0,0,0,0)` for an
empty list). -/
def calculateAverageColor (colors : List Color) : Color :=
  if colors.length = 0 then ⟨0, 0, 0, 0⟩
  else
    let s := colors.foldl
      (fun (s : Color) c => ⟨s.r + c.r, s.g + c.g, s.b + c.b, s.a + c.a⟩) ⟨0, 0, 0, 0⟩
    let len : ℚ := colors.length
    ⟨jsRound ((s.r : ℚ) / len), jsRound ((s.g : ℚ) / len),
     jsRound ((s.b : ℚ) / len), jsRound ((s.a : ℚ) / len)⟩

/-- `colorGrid[y][x]`: the color of the raster pixel at `(x, y)` (only
evaluated at in-bounds coordinates, as in the source). -/
def colorAt (img : Raster) (x y : ℤ) : Color :=
  let i := (y.toNat * img.width + x.toNat) * 4
  ⟨img.data.getD i 0, img.data.getD (i+1) 0, img.data.getD (i+2) 0, img.data.getD (i+3) 0⟩

/-- `getNeighbors`: in-bounds 4-neighbors in the order left, right, up, down. -/
def getNeighbors (x y : ℤ) (w h : ℕ) : List Point :=
  [(x - 1, y), (x + 1, y), (x, y - 1), (x, y + 1)].filter
    (fun n => decide (0 ≤ n.1) && decide (n.1 < (w : ℤ)) &&
              decide (0 ≤ n.2) && decide (n.2 < (h : ℤ)))

/-- The BFS loop of `growRegion`.  One fuel unit per dequeue; the driver
passes `4*w*h + 1` fuel, which bounds the number of enqueues (`1` seed plus
at most four neighbors per accepted pixel) and hence of dequeues. -/
def growRegionGo (img : Raster) (options : ColorQuantizationOptions)
    (startColor : Color) :
    ℕ → List Point → List Point → Region → Region × List Point
  | 0, _, visited, region => (region, visited)
  | fuel + 1, queue, visited, region =>
    match queue with
    | [] => (region, visited)
    | (x, y) :: rest =>
      if visited.contains (x, y) then
        growRegionGo img options startColor fuel rest visited region
      else
        let visited' := (x, y) :: visited
        let currentColor := colorAt img x y
        if sqrtLeB ((colorDistSq startColor currentColor : ℤ) : ℚ)
            options.regionGrowingThreshold then
          let region' : Region :=
            { region with
              pixels := region.pixels ++ [⟨x, y, currentColor⟩],
              colors := region.colors ++ [currentColor],
              boundingBox :=
                ⟨min region.boundingBox.minX x, min region.boundingBox.minY y,
                 max region.boundingBox.maxX x, max region.boundingBox.maxY y⟩ }
          let ns := (getNeighbors x y img.width img.height).filter
            (fun n => !visited'.contains n)
          growRegionGo img options startColor fuel (rest ++ ns) visited' region'
        else
          growRegionGo img options startColor fuel rest visited' region

/-- `RegionGrowingDetector.growRegion`: BFS flood fill from `(startX,
startY)`; also returns the updated shared visited set. -/
def growRegion (img : Raster) (options : ColorQuantizationOptions)
    (startX startY : ℤ) (visited : List Point) : Region × List Point :=
  let region0 : Region :=
    { id := 0, colors := [], pixels := [],
      boundingBox := ⟨startX, startY, startX, startY⟩,
      area := 0, averageColor := ⟨0, 0, 0, 0⟩ }
  let startColor := colorAt img startX startY
  let (region, visited') := growRegionGo img options startColor
    (4 * img.width * img.height + 1) [(startX, startY)] visited region0
  ({ region with area := region.pixels.length,
                 averageColor := calculateAverageColor region.colors }, visited')

/-- The row-major driver loop of `detectRegions`. -/
def detectRegionsGo (img : Raster) (options : ColorQuantizationOptions) :
    List Point → List Point → List Region → ℕ → List Region
  | [], _, regions, _ => regions
  | (x, y) :: rest, visited, regions, regionId =>
    if visited.contains (x, y) then
      detectRegionsGo img options rest visited regions regionId
    else
      let (region, visited') := growRegion img options x y visited
      if region.pixels.length > 0 then
        detectRegionsGo img options rest visited'
          (regions ++ [{ region with id := regionId }]) (regionId + 1)
      else
        detectRegionsGo img options rest visited' regions regionId

/-- `RegionGrowingDetector.detectRegions`. -/
def detectRegions (img : Raster) (options : ColorQuantizationOptions) : List Region :=
  detectRegionsGo img options (rowMajor img.height img.width) [] [] 0

/-! ## Merging similar regions (`HierarchicalRegionOrganizer`) -/

/-- `regionsAreSimilar`: average colors within `threshold`
(`Math.sqrt (distSq) <= threshold`). -/
def regionsAreSimilar (region1 region2 : Region) (threshold : ℚ) : Bool :=
  sqrtLeB ((colorDistSq region1.averageColor region2.averageColor : ℤ) : ℚ) threshold

/-- Minimum of a list of `ℤ`, folded as JS `Math.min` starting from
`Infinity`: `none` plays the role of `Infinity` and the result for the
empty list (which never occurs at call sites) is defaulted to `0`. -/
def foldMinD (l : List ℤ) : ℤ :=
  (l.foldl (fun acc v => some (acc.elim v (min · v))) (none : Option ℤ)).getD 0

/-- Maximum of a list of `ℤ`, folded as JS `Math.max` starting from
`-Infinity`. -/
def foldMaxD (l : List ℤ) : ℤ :=
  (l.foldl (fun acc v => some (acc.elim v (max · v))) (none : Option ℤ)).getD 0

instance : Inhabited Color := ⟨⟨0, 0, 0, 0⟩⟩

instance : Inhabited BBox := ⟨⟨0, 0, 0, 0⟩⟩

instance : Inhabited Region := ⟨⟨0, [], [], default, 0, default⟩⟩

/-- `mergeRegions`: concatenate pixel/color lists, sum areas, join bounding
boxes, keep the first region's id and recompute the average color over the
concatenated color list. -/
def mergeRegions (regions : List Region) : Region :=
  let colors := regions.foldl (fun acc r => acc ++ r.colors) []
  let pixels := regions.foldl (fun acc r => acc ++ r.pixels) []
  let area := regions.foldl (fun acc r => acc + r.area) 0
  { id := (regions.headD default).id,
    colors := colors,
    pixels := pixels,
    boundingBox :=
      ⟨foldMinD (regions.map (fun r => r.boundingBox.minX)),
       foldMinD (regions.map (fun r => r.boundingBox.minY)),
       foldMaxD (regions.map (fun r => r.boundingBox.maxX)),
       foldMaxD (regions.map (fun r => r.boundingBox.maxY))⟩,
    area := area,
    averageColor := calculateAverageColor colors }

/-- The inner `forEach` of `mergeSimilarRegions`: collect every not-yet
processed region similar to the representative, marking it processed. -/
def collectSimilar (all : List Region) (rep : Region) (threshold : ℚ)
    (processed : List ℕ) : List Region × List ℕ :=
  all.foldl (fun acc other =>
    if acc.2.contains other.id then acc
    else if regionsAreSimilar rep other threshold then
      (acc.1 ++ [other], acc.2 ++ [other.id])
    else acc) ([rep], processed)

/-- The outer `forEach` of `mergeSimilarRegions`. -/
def mergeSimilarGo (all : List Region) (threshold : ℚ) :
    List Region → List Region → List ℕ → List Region
  | [], merged, _ => merged
  | region :: rest, merged, processed =>
    if processed.contains region.id then
      mergeSimilarGo all threshold rest merged processed
    else
      let (sims, processed') :=
        collectSimilar all region threshold (processed ++ [region.id])
      if sims.length > 1 then
        mergeSimilarGo all threshold rest (merged ++ [mergeRegions sims]) processed'
      else
        mergeSimilarGo all threshold rest (merged ++ [region]) processed'

/-- `HierarchicalRegionOrganizer.mergeSimilarRegions`. -/
def mergeSimilarRegions (regions : List Region) (threshold : ℚ) : List Region :=
  mergeSimilarGo regions threshold regions [] []

/-! ## Path tracing (`colorQuantization.ts` second half: tracer classes) -/

/-- Edge mask as the source's `boolean[][]` (`edgeMap[y][x]`). -/
abbrev EdgeMap := List (List Bool)

/-- `edgeMap.length`. -/
def emHeight (em : EdgeMap) : ℕ := em.length

/-- `edgeMap[0].length`. -/
def emWidth (em : EdgeMap) : ℕ := (em.headD []).length

/-- `edgeMap[y][x]`, with JS's out-of-range access yielding a falsy value. -/
def getGrid (em : EdgeMap) (x y : ℤ) : Bool :=
  decide (0 ≤ x) && decide (0 ≤ y) && ((em.getD y.toNat []).getD x.toNat false)

/-- `isValidPixel` (identical in both tracer classes). -/
def isValidPixel (x y : ℤ) (w h : ℕ) : Bool :=
  decide (0 ≤ x) && decide (x < (w : ℤ)) && decide (0 ≤ y) && decide (y < (h : ℤ))

/-- Moore-Neighbor `DIRECTIONS`: 8-neighborhood, clockwise from top-left. -/
def DIRECTIONS : List Point :=
  [(-1, -1), (0, -1), (1, -1), (1, 0), (1, 1), (0, 1), (-1, 1), (-1, 0)]

/-- Square-tracing `directions`: right, down, left, up. -/
def squareDirections : List Point := [(1, 0), (0, 1), (-1, 0), (0, -1)]

/-- `findNextPixel` (shared shape of both tracer classes): search the
direction table clockwise starting at `direction`, returning the first
valid edge neighbor. -/
def findNextPixel (dirs : List Point) (em : EdgeMap) (cur : Point)
    (direction : ℕ) : Option Point :=
  (List.range dirs.length).findSome? (fun i =>
    let d := dirs.getD ((direction + i) % dirs.length) (0, 0)
    let n : Point := (cur.1 + d.1, cur.2 + d.2)
    if isValidPixel n.1 n.2 (emWidth em) (emHeight em) && getGrid em n.1 n.2 then
      some n
    else none)

/-- `MooreNeighborTracer.updateDirection`: return the direction opposite to
the one just travelled (`(i + 4) % 8`); fall back to the current one. -/
def mooreUpdateDirection (cur next : Point) (currentDirection : ℕ) : ℕ :=
  match (List.range 8).find?
      (fun i => DIRECTIONS.getD i (0, 0) = (next.1 - cur.1, next.2 - cur.2)) with
  | some i => (i + 4) % 8
  | none => currentDirection

/-- `SquareTracer.updateDirection`. -/
def squareUpdateDirection (cur next : Point) (currentDirection : ℕ) : ℕ :=
  let dx := next.1 - cur.1
  let dy := next.2 - cur.2
  if dx = 1 ∧ dy = 0 then 0
  else if dx = 0 ∧ dy = 1 then 1
  else if dx = -1 ∧ dy = 0 then 2
  else if dx = 0 ∧ dy = -1 then 3
  else currentDirection

/-- The shared do/while loop of `MooreNeighborTracer.tracePath` and
`SquareTracer.tracePath`: stop on a repeated pixel, on no next pixel, or
when the path reaches the `width*height` safety cap.  One fuel unit per
iteration; the callers pass `width*height` fuel, enough because each
non-final iteration grows `path` by one and the loop condition keeps
`path.length < width*height`. -/
def traceLoop (findNext : Point → ℕ → Option Point)
    (upd : Point → Point → ℕ → ℕ) (cap : ℕ) :
    ℕ → Point → ℕ → List Point → List Point → List Point
  | 0, _, _, _, path => path
  | fuel + 1, cur, direction, visited, path =>
    if visited.contains cur then path
    else
      match findNext cur direction with
      | none => path ++ [cur]
      | some next =>
        if (path ++ [cur]).length < cap then
          traceLoop findNext upd cap fuel next (upd cur next direction)
            (cur :: visited) (path ++ [cur])
        else path ++ [cur]

/-- `Path` of the source (named `TracedPath` here: Mathlib already declares
a root `Path`). -/
structure TracedPath where
  points : List Point
  isClosed : Bool
  boundingBox : BBox
deriving DecidableEq, Repr

instance : Inhabited TracedPath := ⟨⟨[], false, default⟩⟩

/-- `processPath` (identical in `MooreNeighborTracer` and `SquareTracer`):
empty sentinel for an empty list, else bounding box and the closing test
`points.length > 2 && |Δx| ≤ 1 && |Δy| ≤ 1` between first and last point. -/
def processPath (points : List Point) : TracedPath :=
  if points.length = 0 then ⟨[], false, ⟨0, 0, 0, 0⟩⟩
  else
    let p0 := points.headD (0, 0)
    let pl := points.getLastD (0, 0)
    ⟨points,
     decide (2 < points.length) && decide ((p0.1 - pl.1).natAbs ≤ 1) &&
       decide ((p0.2 - pl.2).natAbs ≤ 1),
     ⟨foldMinD (points.map Prod.fst), foldMinD (points.map Prod.snd),
      foldMaxD (points.map Prod.fst), foldMaxD (points.map Prod.snd)⟩⟩

/-- The raw point list traced by `MooreNeighborTracer.tracePath`. -/
def mooreTraceRaw (em : EdgeMap) (startPoint : Point) : List Point :=
  traceLoop (findNextPixel DIRECTIONS em) mooreUpdateDirection
    (emWidth em * emHeight em) (emWidth em * emHeight em) startPoint 0 [] []

/-- `MooreNeighborTracer.tracePath`. -/
def mooreTracePath (em : EdgeMap) (startPoint : Point) : TracedPath :=
  processPath (mooreTraceRaw em startPoint)

/-- The raw point list traced by `SquareTracer.tracePath`. -/
def squareTraceRaw (em : EdgeMap) (startPoint : Point) : List Point :=
  traceLoop (findNextPixel squareDirections em) squareUpdateDirection
    (emWidth em * emHeight em) (emWidth em * emHeight em) startPoint 0 [] []

/-- `SquareTracer.tracePath`. -/
def squareTracePath (em : EdgeMap) (startPoint : Point) : TracedPath :=
  processPath (squareTraceRaw em startPoint)

/-- `PathTracingOptions`. -/
inductive TracingAlgorithm
  | mooreNeighbor
  | squareTracing
  | custom
deriving DecidableEq, Repr

structure PathTracingOptions where
  algorithm : TracingAlgorithm
  smoothingFactor : ℚ
  simplificationThreshold : ℚ
  minPathLength : ℕ
deriving DecidableEq, Repr

/-- `CustomPathTracer.smoothPath`: weighted-average smoothing of interior
points with clamped factor, endpoints untouched, coordinates re-rounded. -/
def smoothPath (points : List Point) (smoothingFactor : ℚ) : List Point :=
  if points.length < 3 then points
  else
    let factor := max 0 (min 1 smoothingFactor)
    (List.range points.length).map (fun i =>
      if i = 0 ∨ i = points.length - 1 then points.getD i (0, 0)
      else
        let prev := points.getD (i - 1) (0, 0)
        let curr := points.getD i (0, 0)
        let next := points.getD (i + 1) (0, 0)
        ((jsRound ((curr.1 : ℚ) * (1 - factor) + ((prev.1 : ℚ) + (next.1 : ℚ)) * factor * (1/2)),
          jsRound ((curr.2 : ℚ) * (1 - factor) + ((prev.2 : ℚ) + (next.2 : ℚ)) * factor * (1/2))) : Point))

/-- Square of `CustomPathTracer.perpendicularDistance` (the source takes
`Math.sqrt` of this and only compares it with a threshold). -/
def perpendicularDistSq (point lineStart lineEnd : Point) : ℚ :=
  let A := (point.1 : ℚ) - (lineStart.1 : ℚ)
  let B := (point.2 : ℚ) - (lineStart.2 : ℚ)
  let C := (lineEnd.1 : ℚ) - (lineStart.1 : ℚ)
  let D := (lineEnd.2 : ℚ) - (lineStart.2 : ℚ)
  let dot := A * C + B * D
  let lenSq := C * C + D * D
  if lenSq = 0 then A * A + B * B
  else
    let param := dot / lenSq
    let xx := if param < 0 then (lineStart.1 : ℚ)
      else if 1 < param then (lineEnd.1 : ℚ)
      else (lineStart.1 : ℚ) + param * C
    let yy := if param < 0 then (lineStart.2 : ℚ)
      else if 1 < param then (lineEnd.2 : ℚ)
      else (lineStart.2 : ℚ) + param * D
    ((point.1 : ℚ) - xx) * ((point.1 : ℚ) - xx) +
      ((point.2 : ℚ) - yy) * ((point.2 : ℚ) - yy)

/-- `CustomPathTracer.simplifyPath`: single-pass perpendicular-distance
filter keeping first and last points. -/
def simplifyPath (points : List Point) (threshold : ℚ) : List Point :=
  if points.length < 3 then points
  else
    let first := points.headD (0, 0)
    let res := ((List.range (points.length - 2)).map (· + 1)).foldl
      (fun (acc : List Point × Point) i =>
        let current := points.getD i (0, 0)
        let next := points.getD (i + 1) (0, 0)
        if sqrtGtB (perpendicularDistSq current acc.2 next) threshold then
          (acc.1 ++ [current], current)
        else acc)
      ([first], first)
    res.1 ++ [points.getLastD (0, 0)]

/-- `CustomPathTracer.calculateBoundingBox`. -/
def calculateBoundingBox (points : List Point) : BBox :=
  if points.length = 0 then ⟨0, 0, 0, 0⟩
  else
    ⟨foldMinD (points.map Prod.fst), foldMinD (points.map Prod.snd),
     foldMaxD (points.map Prod.fst), foldMaxD (points.map Prod.snd)⟩

/-- `CustomPathTracer.tracePath`: Moore-Neighbor raw trace, smoothing,
simplification, with the zero-point sentinel for too-short results. -/
def customTracePath (em : EdgeMap) (startPoint : Point)
    (options : PathTracingOptions) : TracedPath :=
  if (simplifyPath (smoothPath (mooreTracePath em startPoint).points
        options.smoothingFactor) options.simplificationThreshold).length <
      options.minPathLength then ⟨[], false, ⟨0, 0, 0, 0⟩⟩
  else
    ⟨simplifyPath (smoothPath (mooreTracePath em startPoint).points
        options.smoothingFactor) options.simplificationThreshold,
     (mooreTracePath em startPoint).isClosed,
     calculateBoundingBox (simplifyPath (smoothPath
        (mooreTracePath em startPoint).points options.smoothingFactor)
        options.simplificationThreshold)⟩

/-- `PathTracingFactory.createTracer` + the `tracer.tracePath` call. -/
def tracePathWith (alg : TracingAlgorithm) (em : EdgeMap) (startPoint : Point)
    (options : PathTracingOptions) : TracedPath :=
  match alg with
  | .mooreNeighbor => mooreTracePath em startPoint
  | .squareTracing => squareTracePath em startPoint
  | .custom => customTracePath em startPoint options

/-- The row-major driver loop of `PathTracingFactory.traceAllPaths`. -/
def traceAllGo (em : EdgeMap) (options : PathTracingOptions) :
    List Point → List TracedPath → List Point → List TracedPath
  | [], paths, _ => paths
  | (x, y) :: rest, paths, visited =>
    if getGrid em x y && !visited.contains (x, y) then
      if options.minPathLength ≤
          (tracePathWith options.algorithm em (x, y) options).points.length then
        traceAllGo em options rest
          (paths ++ [tracePathWith options.algorithm em (x, y) options])
          (visited ++ (tracePathWith options.algorithm em (x, y) options).points)
      else
        traceAllGo em options rest paths visited
    else
      traceAllGo em options rest paths visited

/-- `PathTracingFactory.traceAllPaths`. -/
def traceAllPaths (em : EdgeMap) (options : PathTracingOptions) : List TracedPath :=
  traceAllGo em options (rowMajor (emHeight em) (emWidth em)) [] []

/-! ## Vector assembly (`customVectorizer.ts`, `CustomVectorizer`) -/

/-- Number of occurrences of `pat` in `s`, one per starting position.  For
the pattern `"<path"` (which cannot overlap itself) this equals the JS
`(svg.match(/<path/g) || []).length`. -/
def countOccs (pat : List Char) : List Char → ℕ
  | [] => 0
  | c :: rest =>
    (if (c :: rest).take pat.length = pat then 1 else 0) + countOccs pat rest

/-- The `quality` record of `VectorizationResult`. -/
structure Quality where
  accuracy : ℤ
  smoothness : ℤ
  fileSize : ℕ
  processingTime : ℤ
deriving DecidableEq, Repr

/-- `CustomVectorizer.calculateQualityMetrics`, with the two
`performance.now()` readings (`startTime` at the start of `vectorize`, `now`
inside the metrics call) made explicit.  `new Blob([svg]).size` is the
UTF-8 byte length of the SVG text. -/
def calculateQualityMetrics (svg : String) (startTime now : ℚ) : Quality :=
  let processingTime := now - startTime
  let fileSize := svg.utf8ByteSize
  let accuracy := min 95 (max 60 (100 - processingTime / 1000 * 10))
  let pathCount := countOccs "<path".data svg.data
  let smoothness := min 90 (max 50 (100 - (pathCount : ℚ) * 2))
  ⟨jsRound accuracy, jsRound smoothness, fileSize, jsRound processingTime⟩

/-- The `try`-block of `CustomVectorizer.vectorize`, stages abstracted as
possibly-failing computations (in TS, any stage may throw; here a stage
failure is an `Except.error` carrying the thrown message). -/
def runStages {A B C R : Type} (edgeStep : Except String A)
    (pathStep : A → Except String B) (regionStep : Except String C)
    (assembleStep : B → C → Except String R) : Except String R := do
  let edges ← edgeStep
  let paths ← pathStep edges
  let regions ← regionStep
  assembleStep paths regions

/-- `CustomVectorizer.vectorize`: run the staged pipeline; any failure is
caught and re-thrown as a single error with the message
`` `Custom vectorization failed: ${message}` ``. -/
def vectorize {A B C R : Type} (edgeStep : Except String A)
    (pathStep : A → Except String B) (regionStep : Except String C)
    (assembleStep : B → C → Except String R) : Except String R :=
  match runStages edgeStep pathStep regionStep assembleStep with
  | .ok v => .ok v
  | .error msg => .error ("Custom vectorization failed: " ++ msg)

/-! ## Helper lemmas -/

lemma jsRound_intCast (n : ℤ) : jsRound (n : ℚ) = n := by
  unfold jsRound
  rw [add_comm, Int.floor_add_int]
  norm_num

lemma jsRound_le {q : ℚ} {b : ℤ} (h : q ≤ b) : jsRound q ≤ b := by
  unfold jsRound
  calc ⌊q + 1/2⌋ ≤ ⌊(b : ℚ) + 1/2⌋ := Int.floor_le_floor (by linarith)
  _ = b := by rw [add_comm, Int.floor_add_int]; norm_num

lemma le_jsRound {q : ℚ} {a : ℤ} (h : (a : ℚ) ≤ q) : a ≤ jsRound q := by
  unfold jsRound
  exact Int.le_floor.mpr (by linarith)

/-! ## Concrete inputs used by the counterexamples and witnesses -/

/-- 2×1 raster: a black pixel next to a white pixel. -/
def raster2x1 : Raster := ⟨2, 1, [0, 0, 0, 255, 255, 255, 255, 255]⟩

/-- The default region-growing options (`regionGrowingThreshold = 25`). -/
def regionOptions25 : ColorQuantizationOptions := ⟨8, 30, 25, 100, 5⟩

/-- The single region the detector returns on `raster2x1`. -/
def blackRegion : Region :=
  ⟨0, [⟨0, 0, 0, 255⟩], [⟨0, 0, ⟨0, 0, 0, 255⟩⟩], ⟨0, 0, 0, 0⟩, 1, ⟨0, 0, 0, 255⟩⟩

/-- Three one-color regions whose merge is not idempotent at threshold 10:
`A` (avg red 0) and `B` (avg red 10) merge to average 5, which is then
within 10 of `C` (avg red 15) on a second pass. -/
def regionA : Region := ⟨0, [⟨0, 0, 0, 0⟩], [], ⟨0, 0, 0, 0⟩, 0, ⟨0, 0, 0, 0⟩⟩

def regionB : Region := ⟨1, [⟨10, 0, 0, 0⟩], [], ⟨0, 0, 0, 0⟩, 0, ⟨10, 0, 0, 0⟩⟩

def regionC : Region := ⟨2, [⟨15, 0, 0, 0⟩], [], ⟨0, 0, 0, 0⟩, 0, ⟨15, 0, 0, 0⟩⟩

/-- 3×1 mask with three edge pixels in a row. -/
def rowMask : EdgeMap := [[true, true, true]]

/-- Moore-Neighbor tracing options with `minPathLength = 1`. -/
def mooreOptions1 : PathTracingOptions := ⟨.mooreNeighbor, 3/10, 2, 1⟩

/-- 1×1 mask with a single edge pixel. -/
def dotMask : EdgeMap := [[true]]

/-- Moore-Neighbor tracing options with `minPathLength = 2`. -/
def mooreOptions2 : PathTracingOptions := ⟨.mooreNeighbor, 3/10, 2, 2⟩

/-- 1×2 raster holding two very different colors. -/
def rasterBW : Raster := ⟨1, 2, [0, 0, 0, 255, 255, 255, 255, 255]⟩

/-- k-means options forcing the random-initialisation branch (`k = 1`,
`maxIterations = 0`). -/
def kmOptions0 : ColorQuantizationOptions := ⟨1, 30, 25, 0, 5⟩

/-- 1×1 pure-red raster. -/
def raster1x1 : Raster := ⟨1, 1, [255, 0, 0, 255]⟩

/-- Default-ish k-means options (`k = 8`). -/
def kmOptions8 : ColorQuantizationOptions := ⟨8, 30, 25, 100, 5⟩

/-! ## Claim theorems: concrete refutations and direct confirmations -/

/-- C2 (code bug): on the 2×1 black/white raster with the default
threshold 25, region growing returns a single region containing only the
pixel `(0,0)` — the white pixel `(1,0)` is consumed as visited when its
color is rejected and ends up in no region at all, violating the claimed
partition property. -/
theorem detectRegions_drops_rejected_pixel :
    detectRegions raster2x1 regionOptions25 = [blackRegion] ∧
    (detectRegions raster2x1 regionOptions25).countP
      (fun reg => reg.pixels.any (fun p => decide (p.x = 1) && decide (p.y = 0))) = 0 := by
  decide

/-- C4 (counterexample): merging `[A, B, C]` at threshold 10 yields two
regions, and merging the result again at the same threshold merges them
further — `mergeSimilarRegions` is not idempotent. -/
theorem mergeSimilarRegions_not_idempotent :
    mergeSimilarRegions (mergeSimilarRegions [regionA, regionB, regionC] 10) 10 ≠
      mergeSimilarRegions [regionA, regionB, regionC] 10 := by
  decide

/-- C1 (counterexample): on the 3×1 all-edge mask with `minPathLength = 1`
the pixel `(1,0)` belongs to two distinct returned paths (so the paths'
point sets are not disjoint), and on the 1×1 edge mask with
`minPathLength = 2` the edge pixel `(0,0)` belongs to no returned path. -/
theorem traceAllPaths_shares_and_omits :
    2 ≤ (traceAllPaths rowMask mooreOptions1).countP
        (fun p => p.points.contains ((1 : ℤ), (0 : ℤ))) ∧
    getGrid dotMask 0 0 = true ∧
    traceAllPaths dotMask mooreOptions2 = [] := by
  decide

/-- C6 (counterexample): with more deduplicated colors than clusters,
`quantize` depends on the `Math.random()` draws (two runs on the identical
raster and options differ), and `calculateQualityMetrics` depends on the
wall clock (identical SVG text, different clock reading, different
accuracy). -/
theorem quantize_and_metrics_not_deterministic :
    quantize rasterBW kmOptions0 [0] ≠ quantize rasterBW kmOptions0 [1/2] ∧
    (calculateQualityMetrics "" 0 0).accuracy ≠
      (calculateQualityMetrics "" 0 2000).accuracy := by
  decide

/-- C8 (counterexample): at `processingTime = 1550 ms` the code rounds
`clamp(100 − 15.5, 60, 95) = 84.5` to `85`, so the returned accuracy is not
equal to the claimed un-rounded clamp value. -/
theorem metrics_accuracy_not_exact_clamp :
    ((calculateQualityMetrics "" 0 1550).accuracy : ℚ) ≠
      min 95 (max 60 (100 - 1550/1000 * 10)) := by
  decide

/-- C8 (amended): quality metrics satisfy `accuracy = round(clamp(100 −
(processingTime/1000)·10, 60, 95))`, `smoothness = clamp(100 − 2·pathCount,
50, 90)` (an integer, so its rounding is exact), `60 ≤ accuracy ≤ 95`,
`50 ≤ smoothness ≤ 90`, and `fileSize` is the UTF-8 byte length of the SVG
text. -/
theorem calculateQualityMetrics_spec (svg : String) (startTime now : ℚ) :
    (calculateQualityMetrics svg startTime now).accuracy =
        jsRound (min 95 (max 60 (100 - (now - startTime) / 1000 * 10))) ∧
    (calculateQualityMetrics svg startTime now).smoothness =
        min 90 (max 50 (100 - (countOccs "<path".data svg.data : ℤ) * 2)) ∧
    60 ≤ (calculateQualityMetrics svg startTime now).accuracy ∧
    (calculateQualityMetrics svg startTime now).accuracy ≤ 95 ∧
    50 ≤ (calculateQualityMetrics svg startTime now).smoothness ∧
    (calculateQualityMetrics svg startTime now).smoothness ≤ 90 ∧
    (calculateQualityMetrics svg startTime now).fileSize = svg.utf8ByteSize := by
  refine ⟨rfl, ?_, ?_, ?_, ?_, ?_, rfl⟩
  · show jsRound (min 90 (max 50 (100 - (countOccs "<path".data svg.data : ℚ) * 2))) = _
    rw [show (min 90 (max 50 (100 - (countOccs "<path".data svg.data : ℚ) * 2)))
        = ((min 90 (max 50 (100 - (countOccs "<path".data svg.data : ℤ) * 2)) : ℤ) : ℚ) by
      push_cast; rfl]
    exact jsRound_intCast _
  · show (60 : ℤ) ≤ jsRound (min 95 (max 60 (100 - (now - startTime) / 1000 * 10)))
    exact le_jsRound (by
      simp only [le_min_iff]
      constructor <;> [norm_num; exact le_max_left _ _])
  · show jsRound (min 95 (max 60 (100 - (now - startTime) / 1000 * 10))) ≤ 95
    exact jsRound_le (by
      have h95 : ((95:ℤ):ℚ) = (95:ℚ) := by norm_num
      rw [h95]; exact min_le_left _ _)
  · show (50 : ℤ) ≤ jsRound (min 90 (max 50 (100 - (countOccs "<path".data svg.data : ℚ) * 2)))
    exact le_jsRound (by
      simp only [le_min_iff]
      constructor <;> [norm_num; exact le_max_left _ _])
  · show jsRound (min 90 (max 50 (100 - (countOccs "<path".data svg.data : ℚ) * 2))) ≤ 90
    exact jsRound_le (by
      have h90 : ((90:ℤ):ℚ) = (90:ℚ) := by norm_num
      rw [h90]; exact min_le_left _ _)

/-- C7: whenever the staged pipeline fails with message `m`, `vectorize`
returns exactly one error whose message is of the form
`"<stage> failed: <m>"` (with the fixed stage label `"Custom
vectorization"`), carrying the original message, and returns no result. -/
theorem vectorize_error_wrapping {A B C R : Type} (edgeStep : Except String A)
    (pathStep : A → Except String B) (regionStep : Except String C)
    (assembleStep : B → C → Except String R) (m : String)
    (h : runStages edgeStep pathStep regionStep assembleStep = .error m) :
    vectorize edgeStep pathStep regionStep assembleStep =
        .error ("Custom vectorization" ++ " failed: " ++ m) ∧
      ∀ r, vectorize edgeStep pathStep regionStep assembleStep ≠ .ok r := by
  unfold vectorize
  rw [h]
  constructor
  · show Except.error ("Custom vectorization failed: " ++ m) =
      Except.error ("Custom vectorization" ++ " failed: " ++ m)
    rw [show ("Custom vectorization failed: " : String) =
        "Custom vectorization" ++ " failed: " from by decide,
      String.append_assoc]
  · intro r hr
    have hr' : Except.error ("Custom vectorization failed: " ++ m) =
        (Except.ok r : Except String R) := hr
    exact Except.noConfusion hr'

/-- C7 witness: a concrete failing edge stage is wrapped as claimed. -/
theorem vectorize_error_wrapping_witness :
    vectorize (Except.error "stage exploded" : Except String Unit)
        (fun _ => Except.ok ()) (Except.ok ())
        (fun _ _ => Except.ok "svg") =
      Except.error ("Custom vectorization" ++ " failed: " ++ "stage exploded") :=
  (vectorize_error_wrapping (Except.error "stage exploded")
    (fun _ => Except.ok ()) (Except.ok ())
    (fun _ _ => Except.ok ("svg" : String)) "stage exploded" rfl).1

/-- C9: when the deduplicated colors number at most `kMeansClusters`,
`quantize` returns one cluster per unique color, whose centroid is the
color and whose pixel list holds exactly that color. -/
theorem quantize_few_colors (img : Raster) (options : ColorQuantizationOptions)
    (draws : List ℚ)
    (h : (dedupColors (extractColors img.data) options.colorSimilarityThreshold).length ≤
      options.kMeansClusters) :
    quantize img options draws =
      (dedupColors (extractColors img.data) options.colorSimilarityThreshold).map
        (fun color =>
          ColorCluster.mk color [color]
            (0, 0, (img.width : ℤ) - 1, (img.height : ℤ) - 1)) := by
  unfold quantize
  simp only
  rw [if_pos h]

/-- C9 witness: a 1×1 red raster with `k = 8` gives one red cluster. -/
theorem quantize_few_colors_witness :
    quantize raster1x1 kmOptions8 [] =
      [⟨⟨255, 0, 0, 255⟩, [⟨255, 0, 0, 255⟩], (0, 0, 0, 0)⟩] := by
  rw [quantize_few_colors raster1x1 kmOptions8 [] (by decide)]
  decide

/-- C6 (amended): `quantize` is independent of the `Math.random()` draws
exactly in the branch where the deduplicated colors do not exceed
`kMeansClusters` (no random initialisation happens there). -/
theorem quantize_deterministic_when_few_colors (img : Raster)
    (options : ColorQuantizationOptions) (d1 d2 : List ℚ)
    (h : (dedupColors (extractColors img.data) options.colorSimilarityThreshold).length ≤
      options.kMeansClusters) :
    quantize img options d1 = quantize img options d2 := by
  unfold quantize
  simp only
  rw [if_pos h, if_pos h]

/-- C6 witness: on the red 1×1 raster two different draw streams give the
same clustering. -/
theorem quantize_deterministic_when_few_colors_witness :
    quantize raster1x1 kmOptions8 [0] = quantize raster1x1 kmOptions8 [1/2] :=
  quantize_deterministic_when_few_colors raster1x1 kmOptions8 [0] [1/2] (by decide)

/-- Every path pushed by the driver loop passed the
`path.points.length >= minPathLength` filter. -/
lemma traceAllGo_min_length (em : EdgeMap) (opts : PathTracingOptions) :
    ∀ (coords : List Point) (paths : List TracedPath) (visited : List Point),
      (∀ p ∈ paths, opts.minPathLength ≤ p.points.length) →
      ∀ p ∈ traceAllGo em opts coords paths visited,
        opts.minPathLength ≤ p.points.length := by
  intro coords
  induction coords with
  | nil => intro paths visited h p hp; exact h p hp
  | cons c rest ih =>
    intro paths visited h p hp
    obtain ⟨x, y⟩ := c
    rw [traceAllGo] at hp
    by_cases h1 : (getGrid em x y && !visited.contains (x, y)) = true
    · rw [if_pos h1] at hp
      by_cases h2 : opts.minPathLength ≤
          (tracePathWith opts.algorithm em (x, y) opts).points.length
      · rw [if_pos h2] at hp
        refine ih _ _ ?_ p hp
        intro q hq
        rcases List.mem_append.mp hq with hq | hq
        · exact h q hq
        · rw [List.mem_singleton.mp hq]; exact h2
      · rw [if_neg h2] at hp
        exact ih _ _ h p hp
    · rw [if_neg h1] at hp
      exact ih _ _ h p hp

/-- C10: with `minPathLength ≥ 1`, every path returned by `traceAllPaths`
has at least `minPathLength` points; in particular no returned path is the
empty sentinel. -/
theorem traceAllPaths_min_length (em : EdgeMap) (opts : PathTracingOptions)
    (h1 : 1 ≤ opts.minPathLength) :
    ∀ p ∈ traceAllPaths em opts,
      opts.minPathLength ≤ p.points.length ∧ p.points ≠ [] := by
  intro p hp
  have hlen := traceAllGo_min_length em opts _ [] [] (by intro q hq; cases hq) p hp
  refine ⟨hlen, ?_⟩
  intro hnil
  rw [hnil] at hlen
  simp only [List.length_nil] at hlen
  omega

/-- C10 witness: on the 3×1 mask with `minPathLength = 1` the first
returned path is non-empty. -/
theorem traceAllPaths_min_length_witness :
    mooreOptions1.minPathLength ≤
        ((traceAllPaths rowMask mooreOptions1).headD default).points.length ∧
      ((traceAllPaths rowMask mooreOptions1).headD default).points ≠ [] :=
  traceAllPaths_min_length rowMask mooreOptions1 (by decide) _ (by decide)

lemma colorDistSq_comm (c1 c2 : Color) : colorDistSq c1 c2 = colorDistSq c2 c1 := by
  unfold colorDistSq; ring

lemma regionsAreSimilar_comm (r1 r2 : Region) (t : ℚ) :
    regionsAreSimilar r1 r2 t = regionsAreSimilar r2 r1 t := by
  unfold regionsAreSimilar
  rw [colorDistSq_comm]

/-- If every region of `all` is already processed or dissimilar to the
representative, the inner collection loop collects nothing. -/
lemma collectSimilar_nothing (all : List Region) (rep : Region) (t : ℚ)
    (processed : List ℕ)
    (h : ∀ other ∈ all, other.id ∈ processed ∨ regionsAreSimilar rep other t = false) :
    collectSimilar all rep t processed = ([rep], processed) := by
  unfold collectSimilar
  induction all with
  | nil => rfl
  | cons a l ih =>
    rw [List.foldl_cons]
    have ha := h a (List.mem_cons_self a l)
    by_cases hc : processed.contains a.id = true
    · rw [if_pos hc]
      exact ih (fun o ho => h o (List.mem_cons_of_mem a ho))
    · rw [if_neg hc]
      have hsim : regionsAreSimilar rep a t = false := by
        rcases ha with ha | ha
        · exact absurd (List.elem_iff.mpr ha) hc
        · exact ha
      rw [hsim]
      simp only [Bool.false_eq_true, if_false]
      exact ih (fun o ho => h o (List.mem_cons_of_mem a ho))

/-- The outer merge loop maps a pairwise-dissimilar, distinct-id region
list to itself. -/
lemma mergeSimilarGo_id (rs : List Region) (t : ℚ)
    (h : List.Pairwise
      (fun a b => a.id ≠ b.id ∧ regionsAreSimilar a b t = false) rs) :
    ∀ (todo pre : List Region), rs = pre ++ todo →
      mergeSimilarGo rs t todo pre (pre.map (fun r => r.id)) = pre ++ todo := by
  intro todo
  induction todo with
  | nil => intro pre _; rw [mergeSimilarGo, List.append_nil]
  | cons region rest ih =>
    intro pre hsplit
    rw [mergeSimilarGo]
    have hpairs := hsplit ▸ h
    have hpre_rel := (List.pairwise_append.mp hpairs).2.2
    have htodo := (List.pairwise_append.mp hpairs).2.1
    have hnotproc : (pre.map (fun r => r.id)).contains region.id = false := by
      rw [Bool.eq_false_iff]
      intro hc
      obtain ⟨a, ha, haid⟩ := List.mem_map.mp (List.elem_iff.mp hc)
      exact (hpre_rel a ha region (List.mem_cons_self _ _)).1 haid
    rw [hnotproc]
    simp only [Bool.false_eq_true, if_false]
    have hcoll : collectSimilar rs region t
        (pre.map (fun r => r.id) ++ [region.id]) =
        ([region], pre.map (fun r => r.id) ++ [region.id]) := by
      apply collectSimilar_nothing
      intro other hother
      rw [hsplit] at hother
      rcases List.mem_append.mp hother with hother | hother
      · exact Or.inl (List.mem_append_left _ (List.mem_map.mpr ⟨other, hother, rfl⟩))
      · rcases List.mem_cons.mp hother with rfl | hother
        · exact Or.inl (List.mem_append_right _ (List.mem_singleton.mpr rfl))
        · exact Or.inr ((List.pairwise_cons.mp htodo).1 other hother).2
    rw [hcoll]
    simp only [List.length_singleton]
    rw [if_neg (by omega : ¬ (1:ℕ) > 1)]
    have hmap : (pre ++ [region]).map (fun r => r.id) =
        pre.map (fun r => r.id) ++ [region.id] := by
      rw [List.map_append]; rfl
    have := ih (pre ++ [region]) (by rw [List.append_assoc]; exact hsplit)
    rw [← hmap]
    rw [this, List.append_assoc]
    rfl

/-- C4 (amended): a region list with pairwise-distinct ids in which no two
distinct regions' average colors are within the threshold is a fixed point
of `mergeSimilarRegions` — re-merging changes nothing exactly when the
first pass left only pairwise-dissimilar regions. -/
theorem mergeSimilarRegions_fixed_point (regions : List Region) (t : ℚ)
    (h : List.Pairwise
      (fun a b => a.id ≠ b.id ∧ regionsAreSimilar a b t = false) regions) :
    mergeSimilarRegions regions t = regions := by
  unfold mergeSimilarRegions
  have := mergeSimilarGo_id regions t h regions [] rfl
  simpa using this

/-- C4 witness: two dissimilar regions (average reds 0 and 15, threshold
10) are returned unchanged. -/
theorem mergeSimilarRegions_fixed_point_witness :
    mergeSimilarRegions [regionA, regionC] 10 = [regionA, regionC] :=
  mergeSimilarRegions_fixed_point [regionA, regionC] 10 (by decide)

/-! ## Tracing machinery lemmas -/

/-- A well-formed `boolean[][]` mask: every row has the width read off the
first row (`edgeMap[0].length`). -/
def Rectangular (em : EdgeMap) : Prop := ∀ row ∈ em, row.length = emWidth em

lemma getGrid_bounds {em : EdgeMap} {x y : ℤ} (hrect : Rectangular em)
    (h : getGrid em x y = true) :
    0 ≤ x ∧ x < (emWidth em : ℤ) ∧ 0 ≤ y ∧ y < (emHeight em : ℤ) := by
  unfold getGrid at h
  simp only [Bool.and_eq_true, decide_eq_true_eq] at h
  obtain ⟨⟨hx, hy⟩, hg⟩ := h
  have hyl : y.toNat < em.length := by
    by_contra hge
    rw [List.getD_eq_default _ _ (le_of_not_lt hge)] at hg
    simp [List.getD] at hg
  have hxl : x.toNat < (em.getD y.toNat []).length := by
    by_contra hge
    rw [List.getD_eq_default _ _ (le_of_not_lt hge)] at hg
    exact Bool.noConfusion hg
  have hrow : em.getD y.toNat [] ∈ em := by
    rw [List.getD_eq_getElem em [] hyl]
    exact List.getElem_mem hyl
  have hw := hrect _ hrow
  rw [hw] at hxl
  unfold emHeight
  refine ⟨hx, by omega, hy, by omega⟩

lemma getGrid_valid {em : EdgeMap} {x y : ℤ} (hrect : Rectangular em)
    (h : getGrid em x y = true) :
    isValidPixel x y (emWidth em) (emHeight em) = true := by
  obtain ⟨h1, h2, h3, h4⟩ := getGrid_bounds hrect h
  unfold isValidPixel
  simp only [Bool.and_eq_true, decide_eq_true_eq]
  exact ⟨⟨⟨h1, h2⟩, h3⟩, h4⟩

lemma mem_rowMajor {h w : ℕ} {z : Point} :
    z ∈ rowMajor h w ↔ 0 ≤ z.1 ∧ z.1 < (w : ℤ) ∧ 0 ≤ z.2 ∧ z.2 < (h : ℤ) := by
  obtain ⟨zx, zy⟩ := z
  constructor
  · intro hz
    simp only [rowMajor, List.mem_flatMap, List.mem_map, List.mem_range] at hz
    obtain ⟨y, hy, x, hx, hxy⟩ := hz
    rw [Prod.mk.injEq] at hxy
    obtain ⟨h1, h2⟩ := hxy
    refine ⟨by omega, by omega, by omega, by omega⟩
  · rintro ⟨h1, h2, h3, h4⟩
    simp only [rowMajor, List.mem_flatMap, List.mem_map, List.mem_range]
    refine ⟨zy.toNat, by omega, zx.toNat, by omega, ?_⟩
    rw [Prod.mk.injEq]
    constructor <;> omega

lemma findNextPixel_some {dirs : List Point} {em : EdgeMap} {cur : Point}
    {direction : ℕ} {n : Point}
    (h : findNextPixel dirs em cur direction = some n) :
    getGrid em n.1 n.2 = true ∧
      isValidPixel n.1 n.2 (emWidth em) (emHeight em) = true ∧
      ∃ i < dirs.length,
        n = (cur.1 + (dirs.getD ((direction + i) % dirs.length) (0, 0)).1,
             cur.2 + (dirs.getD ((direction + i) % dirs.length) (0, 0)).2) := by
  unfold findNextPixel at h
  obtain ⟨i, hi, hf⟩ := List.exists_of_findSome?_eq_some h
  have hi' := List.mem_range.mp hi
  dsimp only at hf
  by_cases hguard :
      (isValidPixel
          (cur.1 + (dirs.getD ((direction + i) % dirs.length) (0, 0)).1)
          (cur.2 + (dirs.getD ((direction + i) % dirs.length) (0, 0)).2)
          (emWidth em) (emHeight em) &&
        getGrid em
          (cur.1 + (dirs.getD ((direction + i) % dirs.length) (0, 0)).1)
          (cur.2 + (dirs.getD ((direction + i) % dirs.length) (0, 0)).2)) = true
  · rw [if_pos hguard] at hf
    rw [Bool.and_eq_true] at hguard
    obtain ⟨hvalid, hgrid⟩ := hguard
    injection hf with hn
    subst hn
    exact ⟨hgrid, hvalid, i, hi', rfl⟩
  · rw [if_neg hguard] at hf
    exact Option.noConfusion hf

lemma findSome?_range_head {β : Type} {k : ℕ} {f : ℕ → Option β} {b : β}
    (hk : 0 < k) (h : f 0 = some b) : (List.range k).findSome? f = some b := by
  obtain ⟨k', rfl⟩ : ∃ k', k = k' + 1 := ⟨k - 1, by omega⟩
  rw [List.range_succ_eq_map]
  simp [List.findSome?_cons, h]

lemma traceLoop_append (findNext : Point → ℕ → Option Point)
    (upd : Point → Point → ℕ → ℕ) (cap : ℕ) :
    ∀ (fuel : ℕ) (cur : Point) (direction : ℕ) (visited path : List Point),
      ∃ r, traceLoop findNext upd cap fuel cur direction visited path =
        path ++ r := by
  intro fuel
  induction fuel with
  | zero =>
    intro cur direction vis path
    refine ⟨[], ?_⟩
    rw [traceLoop, List.append_nil]
  | succ fuel ih =>
    intro cur direction vis path
    rw [traceLoop]
    split
    · exact ⟨[], (List.append_nil path).symm⟩
    · split
      · exact ⟨[cur], rfl⟩
      · split
        · obtain ⟨r, hr⟩ := ih _ _ (cur :: vis) (path ++ [cur])
          refine ⟨[cur] ++ r, ?_⟩
          rw [hr, List.append_assoc]
        · exact ⟨[cur], rfl⟩

lemma traceLoop_head (findNext : Point → ℕ → Option Point)
    (upd : Point → Point → ℕ → ℕ) (cap : ℕ) (fuel : ℕ) (cur : Point)
    (direction : ℕ) (visited path : List Point) (hf : 0 < fuel)
    (hv : visited.contains cur = false) :
    ∃ r, traceLoop findNext upd cap fuel cur direction visited path =
      path ++ cur :: r := by
  obtain ⟨fuel, rfl⟩ : ∃ k, fuel = k + 1 := ⟨fuel - 1, by omega⟩
  rw [traceLoop, if_neg (by rw [hv]; exact Bool.false_ne_true)]
  split
  · exact ⟨[], rfl⟩
  · split
    · obtain ⟨r, hr⟩ := traceLoop_append findNext upd cap fuel _ _ _ (path ++ [cur])
      refine ⟨r, ?_⟩
      rw [hr, List.append_assoc]
      rfl
    · exact ⟨[], rfl⟩

lemma traceLoop_sound {em : EdgeMap} {findNext : Point → ℕ → Option Point}
    (upd : Point → Point → ℕ → ℕ) (cap : ℕ)
    (hfn : ∀ c d n, findNext c d = some n → getGrid em n.1 n.2 = true) :
    ∀ (fuel : ℕ) (cur : Point) (direction : ℕ) (visited path : List Point),
      (∀ q ∈ path, getGrid em q.1 q.2 = true) →
      getGrid em cur.1 cur.2 = true →
      ∀ q ∈ traceLoop findNext upd cap fuel cur direction visited path,
        getGrid em q.1 q.2 = true := by
  intro fuel
  induction fuel with
  | zero =>
    intro cur direction vis path hpath _ q hq
    rw [traceLoop] at hq
    exact hpath q hq
  | succ fuel ih =>
    intro cur direction vis path hpath hcur q hq
    rw [traceLoop] at hq
    have hpath' : ∀ q ∈ path ++ [cur], getGrid em q.1 q.2 = true := by
      intro q hq'
      rcases List.mem_append.mp hq' with hq' | hq'
      · exact hpath q hq'
      · rw [List.mem_singleton.mp hq']; exact hcur
    split at hq
    · exact hpath q hq
    · split at hq
      · exact hpath' q hq
      · next nxt heq =>
        split at hq
        · exact ih _ _ (cur :: vis) (path ++ [cur]) hpath' (hfn _ _ _ heq) q hq
        · exact hpath' q hq

lemma DIRECTIONS_length : DIRECTIONS.length = 8 := rfl

lemma DIRECTIONS_ne_zero : ∀ i, i < 8 → DIRECTIONS.getD i (0, 0) ≠ ((0 : ℤ), (0 : ℤ)) := by
  decide

/-- In the Moore direction table, index `(i+4) % 8` holds the opposite
vector of index `i`. -/
lemma DIRECTIONS_opp : ∀ i, i < 8 →
    DIRECTIONS.getD ((i + 4) % 8) (0, 0) =
      (-(DIRECTIONS.getD i (0, 0)).1, -(DIRECTIONS.getD i (0, 0)).2) := by
  decide

/-- When the travel step is one of the eight directions,
`mooreUpdateDirection` returns the opposite direction index. -/
lemma mooreUpdateDirection_spec (cur next : Point) (d : ℕ)
    (h : ∃ i, i < 8 ∧ (next.1 - cur.1, next.2 - cur.2) = DIRECTIONS.getD i (0, 0)) :
    ∃ j, j < 8 ∧ DIRECTIONS.getD j (0, 0) = (next.1 - cur.1, next.2 - cur.2) ∧
      mooreUpdateDirection cur next d = (j + 4) % 8 := by
  unfold mooreUpdateDirection
  obtain ⟨i, hi, heq⟩ := h
  cases hf : (List.range 8).find?
      (fun j => DIRECTIONS.getD j (0, 0) = (next.1 - cur.1, next.2 - cur.2)) with
  | none =>
    have hnone := List.find?_eq_none.mp hf i (List.mem_range.mpr hi)
    simp only [decide_eq_true_eq] at hnone
    exact absurd heq.symm hnone
  | some j =>
    have hpj := List.find?_some hf
    have hmem := List.mem_of_find?_eq_some hf
    simp only [decide_eq_true_eq] at hpj
    exact ⟨j, List.mem_range.mp hmem, hpj, rfl⟩

/-- If the very first direction probed already hits a valid edge pixel,
`findNextPixel` returns it. -/
lemma findNextPixel_first_hit (dirs : List Point) (em : EdgeMap) (cur : Point)
    (direction : ℕ) (hlen : 0 < dirs.length)
    (hval : isValidPixel (cur.1 + (dirs.getD (direction % dirs.length) (0, 0)).1)
      (cur.2 + (dirs.getD (direction % dirs.length) (0, 0)).2)
      (emWidth em) (emHeight em) = true)
    (hgrid : getGrid em (cur.1 + (dirs.getD (direction % dirs.length) (0, 0)).1)
      (cur.2 + (dirs.getD (direction % dirs.length) (0, 0)).2) = true) :
    findNextPixel dirs em cur direction =
      some (cur.1 + (dirs.getD (direction % dirs.length) (0, 0)).1,
            cur.2 + (dirs.getD (direction % dirs.length) (0, 0)).2) := by
  unfold findNextPixel
  apply findSome?_range_head hlen
  dsimp only
  rw [Nat.add_zero, hval, hgrid]
  rfl

/-- From an edge start pixel, the Moore tracer's second step goes straight
back to the start: `updateDirection` points backwards and the backward
neighbor (the start) is a valid edge pixel, so it is the first hit. -/
lemma moore_backstep {em : EdgeMap} {s p2 : Point} (hrect : Rectangular em)
    (hs : getGrid em s.1 s.2 = true)
    (hnext : findNextPixel DIRECTIONS em s 0 = some p2) :
    p2 ≠ s ∧
      findNextPixel DIRECTIONS em p2 (mooreUpdateDirection s p2 0) = some s := by
  obtain ⟨hg2, hv2, i, hi, hp2⟩ := findNextPixel_some hnext
  rw [DIRECTIONS_length] at hi hp2
  have hd8 : (0 + i) % 8 < 8 := Nat.mod_lt _ (by omega)
  have hδ : (p2.1 - s.1, p2.2 - s.2) = DIRECTIONS.getD ((0 + i) % 8) (0, 0) := by
    rw [hp2]
    rw [Prod.mk.injEq]
    constructor <;> ring
  have hne : p2 ≠ s := by
    intro he
    rw [he] at hδ
    simp only [sub_self] at hδ
    exact DIRECTIONS_ne_zero _ hd8 hδ.symm
  obtain ⟨j, hj, hjeq, hupd⟩ := mooreUpdateDirection_spec s p2 0 ⟨(0 + i) % 8, hd8, hδ⟩
  refine ⟨hne, ?_⟩
  rw [hupd]
  have hidx : ((j + 4) % 8) % DIRECTIONS.length = (j + 4) % 8 := by
    show ((j + 4) % 8) % 8 = (j + 4) % 8
    omega
  have hback : DIRECTIONS.getD (((j + 4) % 8) % DIRECTIONS.length) (0, 0) =
      (-(p2.1 - s.1), -(p2.2 - s.2)) := by
    rw [hidx, DIRECTIONS_opp j hj, hjeq]
  have hcoord1 : p2.1 + (DIRECTIONS.getD (((j + 4) % 8) % DIRECTIONS.length) (0, 0)).1 = s.1 := by
    rw [hback]; ring
  have hcoord2 : p2.2 + (DIRECTIONS.getD (((j + 4) % 8) % DIRECTIONS.length) (0, 0)).2 = s.2 := by
    rw [hback]; ring
  have := findNextPixel_first_hit DIRECTIONS em p2 ((j + 4) % 8)
    (by rw [DIRECTIONS_length]; omega)
    (by rw [hcoord1, hcoord2]; exact getGrid_valid hrect hs)
    (by rw [hcoord1, hcoord2]; exact hs)
  rw [this, hcoord1, hcoord2]

/-- Seeded on an edge pixel of a rectangular mask, the Moore tracer always
returns one or two points: from the second pixel the first direction probed
is the backward one, which is the (already visited) start. -/
lemma moore_raw_short (em : EdgeMap) (s : Point) (hrect : Rectangular em)
    (hs : getGrid em s.1 s.2 = true) :
    mooreTraceRaw em s = [s] ∨ ∃ p2, mooreTraceRaw em s = [s, p2] := by
  have hb := getGrid_bounds hrect hs
  have hN : 0 < emWidth em * emHeight em := by
    have h1 : 0 < emWidth em := by omega
    have h2 : 0 < emHeight em := by omega
    exact Nat.mul_pos h1 h2
  unfold mooreTraceRaw
  obtain ⟨n, hn⟩ : ∃ n, emWidth em * emHeight em = n + 1 :=
    ⟨emWidth em * emHeight em - 1, by omega⟩
  rw [hn, traceLoop,
    if_neg (by simp : ¬ (([] : List Point).contains s = true))]
  cases hnext : findNextPixel DIRECTIONS em s 0 with
  | none => left; rfl
  | some p2 =>
    dsimp only
    obtain ⟨hne, hback⟩ := moore_backstep hrect hs hnext
    by_cases h1 : (([] : List Point) ++ [s]).length < n + 1
    · rw [if_pos h1]
      have hn1 : 0 < n := by
        simp only [List.nil_append, List.length_singleton] at h1
        omega
      obtain ⟨m, hm⟩ : ∃ m, n = m + 1 := ⟨n - 1, by omega⟩
      have hcont : ((s :: [] : List Point).contains p2) = false := by
        rw [Bool.eq_false_iff]
        intro hc
        exact hne (List.mem_singleton.mp (List.elem_iff.mp hc))
      rw [hm, traceLoop, if_neg (by rw [hcont]; exact Bool.false_ne_true), hback]
      dsimp only
      by_cases h2 : ((([] : List Point) ++ [s]) ++ [p2]).length < m + 1 + 1
      · rw [if_pos h2]
        cases m with
        | zero => rw [traceLoop]; right; exact ⟨p2, rfl⟩
        | succ m' =>
          rw [traceLoop,
            if_pos (by
              show ((p2 :: s :: [] : List Point).contains s) = true
              exact List.elem_iff.mpr (List.mem_cons_of_mem _ (List.mem_singleton.mpr rfl)))]
          right; exact ⟨p2, rfl⟩
      · rw [if_neg h2]; right; exact ⟨p2, rfl⟩
    · rw [if_neg h1]; left; rfl

lemma processPath_points (pts : List Point) : (processPath pts).points = pts := by
  unfold processPath
  by_cases h : pts.length = 0
  · rw [if_pos h]
    exact (List.length_eq_zero.mp h).symm
  · rw [if_neg h]

lemma processPath_isClosed (pts : List Point) :
    (processPath pts).isClosed =
      (decide (2 < pts.length) &&
        decide (((pts.headD (0, 0)).1 - (pts.getLastD (0, 0)).1).natAbs ≤ 1) &&
        decide (((pts.headD (0, 0)).2 - (pts.getLastD (0, 0)).2).natAbs ≤ 1)) := by
  unfold processPath
  by_cases h : pts.length = 0
  · rw [if_pos h]
    have hnil : pts = [] := List.length_eq_zero.mp h
    subst hnil
    rfl
  · rw [if_neg h]

lemma smoothPath_short (pts : List Point) (f : ℚ) (h : pts.length < 3) :
    smoothPath pts f = pts := by
  unfold smoothPath
  rw [if_pos h]

lemma simplifyPath_short (pts : List Point) (t : ℚ) (h : pts.length < 3) :
    simplifyPath pts t = pts := by
  unfold simplifyPath
  rw [if_pos h]

/-- Custom tracing options with `minPathLength = 1`. -/
def customOptions1 : PathTracingOptions := ⟨.custom, 3/10, 2, 1⟩

/-- C3: for every tracer variant, a path traced from an edge pixel of a
rectangular mask is marked closed iff it has more than 2 points and its
first and last points differ by at most 1 in both axes. -/
theorem tracer_closure_contract (alg : TracingAlgorithm) (em : EdgeMap)
    (s : Point) (opts : PathTracingOptions) (hrect : Rectangular em)
    (hs : getGrid em s.1 s.2 = true) :
    ((tracePathWith alg em s opts).isClosed = true ↔
      (2 < (tracePathWith alg em s opts).points.length ∧
        (((tracePathWith alg em s opts).points.headD (0, 0)).1 -
          ((tracePathWith alg em s opts).points.getLastD (0, 0)).1).natAbs ≤ 1 ∧
        (((tracePathWith alg em s opts).points.headD (0, 0)).2 -
          ((tracePathWith alg em s opts).points.getLastD (0, 0)).2).natAbs ≤ 1)) := by
  cases alg with
  | mooreNeighbor =>
    simp only [tracePathWith]
    unfold mooreTracePath
    rw [processPath_isClosed, processPath_points]
    simp only [Bool.and_eq_true, decide_eq_true_eq, and_assoc]
  | squareTracing =>
    simp only [tracePathWith]
    unfold squareTracePath
    rw [processPath_isClosed, processPath_points]
    simp only [Bool.and_eq_true, decide_eq_true_eq, and_assoc]
  | custom =>
    simp only [tracePathWith]
    have hlen : (mooreTraceRaw em s).length ≤ 2 := by
      rcases moore_raw_short em s hrect hs with hraw | ⟨p2, hraw⟩ <;> simp [hraw]
    have hpts : (mooreTracePath em s).points = mooreTraceRaw em s :=
      processPath_points _
    have hsi : simplifyPath (smoothPath (mooreTracePath em s).points
        opts.smoothingFactor) opts.simplificationThreshold = mooreTraceRaw em s := by
      rw [hpts, smoothPath_short _ _ (by omega), simplifyPath_short _ _ (by omega)]
    have hclosed : (mooreTracePath em s).isClosed = false := by
      unfold mooreTracePath
      rw [processPath_isClosed]
      have h2 : ¬ 2 < (mooreTraceRaw em s).length := by omega
      simp [h2]
    have h2 : ¬ 2 < (mooreTraceRaw em s).length := by omega
    unfold customTracePath
    rw [hsi]
    by_cases hcut : (mooreTraceRaw em s).length < opts.minPathLength
    · rw [if_pos hcut]
      simp
    · rw [if_neg hcut]
      simp [hclosed, h2]

/-- C3 witness: the custom tracer on the 1×1 mask satisfies the closing
contract. -/
theorem tracer_closure_contract_witness :
    ((tracePathWith .custom dotMask (0, 0) customOptions1).isClosed = true ↔
      (2 < (tracePathWith .custom dotMask (0, 0) customOptions1).points.length ∧
        (((tracePathWith .custom dotMask (0, 0) customOptions1).points.headD (0, 0)).1 -
          ((tracePathWith .custom dotMask (0, 0) customOptions1).points.getLastD (0, 0)).1).natAbs ≤ 1 ∧
        (((tracePathWith .custom dotMask (0, 0) customOptions1).points.headD (0, 0)).2 -
          ((tracePathWith .custom dotMask (0, 0) customOptions1).points.getLastD (0, 0)).2).natAbs ≤ 1)) :=
  tracer_closure_contract .custom dotMask (0, 0) customOptions1
    (by unfold Rectangular; decide) (by decide)

/-- All points of a traced path (any variant, seeded on an edge pixel of a
rectangular mask) are edge pixels. -/
lemma tracePathWith_sound (alg : TracingAlgorithm) (em : EdgeMap) (s : Point)
    (opts : PathTracingOptions) (hrect : Rectangular em)
    (hs : getGrid em s.1 s.2 = true) :
    ∀ q ∈ (tracePathWith alg em s opts).points, getGrid em q.1 q.2 = true := by
  cases alg with
  | mooreNeighbor =>
    simp only [tracePathWith]
    unfold mooreTracePath
    rw [processPath_points]
    unfold mooreTraceRaw
    exact traceLoop_sound _ _ (fun c d n h => (findNextPixel_some h).1) _ s 0 [] []
      (by intro q hq; cases hq) hs
  | squareTracing =>
    simp only [tracePathWith]
    unfold squareTracePath
    rw [processPath_points]
    unfold squareTraceRaw
    exact traceLoop_sound _ _ (fun c d n h => (findNextPixel_some h).1) _ s 0 [] []
      (by intro q hq; cases hq) hs
  | custom =>
    simp only [tracePathWith]
    unfold customTracePath
    have hlen : (mooreTraceRaw em s).length ≤ 2 := by
      rcases moore_raw_short em s hrect hs with hraw | ⟨p2, hraw⟩ <;> simp [hraw]
    have hpts : (mooreTracePath em s).points = mooreTraceRaw em s :=
      processPath_points _
    have hsi : simplifyPath (smoothPath (mooreTracePath em s).points
        opts.smoothingFactor) opts.simplificationThreshold = mooreTraceRaw em s := by
      rw [hpts, smoothPath_short _ _ (by omega), simplifyPath_short _ _ (by omega)]
    rw [hsi]
    by_cases hcut : (mooreTraceRaw em s).length < opts.minPathLength
    · rw [if_pos hcut]
      intro q hq
      cases hq
    · rw [if_neg hcut]
      intro q hq
      have hsound : ∀ r ∈ mooreTraceRaw em s, getGrid em r.1 r.2 = true := by
        unfold mooreTraceRaw
        exact traceLoop_sound _ _ (fun c d n h => (findNextPixel_some h).1) _ s 0 [] []
          (by intro r hr; cases hr) hs
      exact hsound q hq

/-- A kept traced path starts at its seed (any variant; the custom variant
needs `minPathLength ≤ 1` so the length cut-off cannot fire). -/
lemma tracePathWith_head (alg : TracingAlgorithm) (em : EdgeMap) (s : Point)
    (opts : PathTracingOptions) (hrect : Rectangular em)
    (hs : getGrid em s.1 s.2 = true) (hmpl : opts.minPathLength ≤ 1) :
    ∃ r, (tracePathWith alg em s opts).points = s :: r := by
  have hb := getGrid_bounds hrect hs
  have hN : 0 < emWidth em * emHeight em := by
    have h1 : 0 < emWidth em := by omega
    have h2 : 0 < emHeight em := by omega
    exact Nat.mul_pos h1 h2
  cases alg with
  | mooreNeighbor =>
    simp only [tracePathWith]
    unfold mooreTracePath
    rw [processPath_points]
    unfold mooreTraceRaw
    obtain ⟨r, hr⟩ := traceLoop_head (findNextPixel DIRECTIONS em)
      mooreUpdateDirection (emWidth em * emHeight em) (emWidth em * emHeight em)
      s 0 [] [] hN (by simp)
    exact ⟨r, hr⟩
  | squareTracing =>
    simp only [tracePathWith]
    unfold squareTracePath
    rw [processPath_points]
    unfold squareTraceRaw
    obtain ⟨r, hr⟩ := traceLoop_head (findNextPixel squareDirections em)
      squareUpdateDirection (emWidth em * emHeight em) (emWidth em * emHeight em)
      s 0 [] [] hN (by simp)
    exact ⟨r, hr⟩
  | custom =>
    simp only [tracePathWith]
    unfold customTracePath
    have hlen : (mooreTraceRaw em s).length ≤ 2 := by
      rcases moore_raw_short em s hrect hs with hraw | ⟨p2, hraw⟩ <;> simp [hraw]
    have hpts : (mooreTracePath em s).points = mooreTraceRaw em s :=
      processPath_points _
    have hsi : simplifyPath (smoothPath (mooreTracePath em s).points
        opts.smoothingFactor) opts.simplificationThreshold = mooreTraceRaw em s := by
      rw [hpts, smoothPath_short _ _ (by omega), simplifyPath_short _ _ (by omega)]
    obtain ⟨r, hr⟩ : ∃ r, mooreTraceRaw em s = s :: r := by
      unfold mooreTraceRaw
      obtain ⟨r, hr⟩ := traceLoop_head (findNextPixel DIRECTIONS em)
        mooreUpdateDirection (emWidth em * emHeight em) (emWidth em * emHeight em)
        s 0 [] [] hN (by simp)
      exact ⟨r, hr⟩
    rw [hsi, hr]
    rw [if_neg (by simp only [List.length_cons]; omega)]
    exact ⟨r, rfl⟩

/-- Paths already collected stay in the driver's output. -/
lemma traceAllGo_mono (em : EdgeMap) (opts : PathTracingOptions) :
    ∀ (coords : List Point) (paths : List TracedPath) (visited : List Point)
      (p : TracedPath), p ∈ paths →
      p ∈ traceAllGo em opts coords paths visited := by
  intro coords
  induction coords with
  | nil => intro paths visited p hp; exact hp
  | cons c rest ih =>
    intro paths visited p hp
    obtain ⟨x, y⟩ := c
    rw [traceAllGo]
    split
    · split
      · exact ih _ _ p (List.mem_append_left _ hp)
      · exact ih _ _ p hp
    · exact ih _ _ p hp

/-- Soundness of the driver: every point of every returned path is a true
pixel of the mask. -/
lemma traceAllGo_sound (em : EdgeMap) (opts : PathTracingOptions)
    (hrect : Rectangular em) :
    ∀ (coords : List Point) (paths : List TracedPath) (visited : List Point),
      (∀ p ∈ paths, ∀ q ∈ p.points, getGrid em q.1 q.2 = true) →
      ∀ p ∈ traceAllGo em opts coords paths visited,
        ∀ q ∈ p.points, getGrid em q.1 q.2 = true := by
  intro coords
  induction coords with
  | nil => intro paths visited h p hp; exact h p hp
  | cons c rest ih =>
    intro paths visited h p hp
    obtain ⟨x, y⟩ := c
    rw [traceAllGo] at hp
    by_cases hcond : (getGrid em x y && !visited.contains (x, y)) = true
    · rw [if_pos hcond] at hp
      rw [Bool.and_eq_true] at hcond
      obtain ⟨hgxy, -⟩ := hcond
      by_cases hkeep : opts.minPathLength ≤
          (tracePathWith opts.algorithm em (x, y) opts).points.length
      · rw [if_pos hkeep] at hp
        refine ih _ _ ?_ p hp
        intro p' hp'
        rcases List.mem_append.mp hp' with hp' | hp'
        · exact h p' hp'
        · rw [List.mem_singleton.mp hp']
          exact tracePathWith_sound opts.algorithm em (x, y) opts hrect hgxy
      · rw [if_neg hkeep] at hp
        exact ih _ _ h p hp
    · rw [if_neg hcond] at hp
      exact ih _ _ h p hp

/-- Coverage of the driver for `minPathLength ≤ 1`: every enumerated true
pixel ends up in some returned path. -/
lemma traceAllGo_coverage (em : EdgeMap) (opts : PathTracingOptions)
    (hrect : Rectangular em) (hmpl : opts.minPathLength ≤ 1) :
    ∀ (coords : List Point) (paths : List TracedPath) (visited : List Point),
      (∀ v ∈ visited, ∃ p ∈ paths, v ∈ p.points) →
      ∀ z ∈ coords, getGrid em z.1 z.2 = true →
        ∃ p ∈ traceAllGo em opts coords paths visited, z ∈ p.points := by
  intro coords
  induction coords with
  | nil => intro paths visited _ z hz; cases hz
  | cons c rest ih =>
    intro paths visited hinv z hz hg
    obtain ⟨x, y⟩ := c
    rw [traceAllGo]
    by_cases hcond : (getGrid em x y && !visited.contains (x, y)) = true
    · rw [if_pos hcond]
      have hcond' := hcond
      rw [Bool.and_eq_true] at hcond'
      obtain ⟨hgxy, -⟩ := hcond'
      obtain ⟨r, hr⟩ := tracePathWith_head opts.algorithm em (x, y) opts hrect hgxy hmpl
      have hkeep : opts.minPathLength ≤
          (tracePathWith opts.algorithm em (x, y) opts).points.length := by
        rw [hr, List.length_cons]; omega
      rw [if_pos hkeep]
      have hinv' : ∀ v ∈ visited ++ (tracePathWith opts.algorithm em (x, y) opts).points,
          ∃ p ∈ paths ++ [tracePathWith opts.algorithm em (x, y) opts], v ∈ p.points := by
        intro v hv
        rcases List.mem_append.mp hv with hv | hv
        · obtain ⟨p, hp, hvp⟩ := hinv v hv
          exact ⟨p, List.mem_append_left _ hp, hvp⟩
        · exact ⟨tracePathWith opts.algorithm em (x, y) opts,
            List.mem_append_right _ (List.mem_singleton.mpr rfl), hv⟩
      rcases List.mem_cons.mp hz with rfl | hz'
      · refine ⟨tracePathWith opts.algorithm em (x, y) opts,
          traceAllGo_mono em opts _ _ _ _
            (List.mem_append_right _ (List.mem_singleton.mpr rfl)), ?_⟩
        rw [hr]
        exact List.mem_cons_self _ _
      · exact ih _ _ hinv' z hz' hg
    · rw [if_neg hcond]
      rcases List.mem_cons.mp hz with rfl | hz'
      · have hcont : visited.contains (x, y) = true := by
          by_contra hc
          apply hcond
          rw [Bool.and_eq_true]
          refine ⟨hg, ?_⟩
          rw [Bool.not_eq_true] at hc
          rw [hc]
          rfl
        obtain ⟨p, hp, hvp⟩ := hinv (x, y) (List.elem_iff.mp hcont)
        exact ⟨p, traceAllGo_mono em opts _ _ _ _ hp, hvp⟩
      · exact ih _ _ hinv z hz' hg

/-- C1 (amended): every point of every returned path is a true pixel, and
with `minPathLength ≤ 1` every true pixel belongs to at least one returned
path; disjointness does not hold (see the counterexample). -/
theorem traceAllPaths_amended (em : EdgeMap) (opts : PathTracingOptions)
    (hrect : Rectangular em) :
    (∀ p ∈ traceAllPaths em opts, ∀ q ∈ p.points, getGrid em q.1 q.2 = true) ∧
    (opts.minPathLength ≤ 1 → ∀ z : Point, getGrid em z.1 z.2 = true →
      ∃ p ∈ traceAllPaths em opts, z ∈ p.points) := by
  constructor
  · exact traceAllGo_sound em opts hrect _ [] []
      (by intro p hp; cases hp)
  · intro hmpl z hz
    apply traceAllGo_coverage em opts hrect hmpl _ [] []
      (by intro v hv; cases hv) z ?_ hz
    rw [mem_rowMajor]
    exact getGrid_bounds hrect hz

/-- C1 witness: on the 3×1 mask the first returned path's second point
`(1, 0)` is indeed a true pixel of the mask. -/
theorem traceAllPaths_amended_witness : getGrid rowMask 1 0 = true :=
  (traceAllPaths_amended rowMask mooreOptions1 (by unfold Rectangular; decide)).1
    ((traceAllPaths rowMask mooreOptions1).headD default) (by decide)
    ((1 : ℤ), (0 : ℤ)) (by decide)
